import Mathlib

/-!
Verification of the TinyFlux coordinator (`src/tinyflux/database.py`).

The coordinator code (class `TinyFlux`) is embedded from the source.  Its
collaborators — the `Index`, the `Storage` backend, `Point` and the query
objects — live in modules that are not part of the sources at hand, so they
are modelled from the specification (spec sections 3, 4.1 and 6); each such
definition says so in its doc comment.  Timestamps are modelled as integers,
tag and field mappings as association lists kept in insertion order (Python
dictionaries preserve insertion order, and the only equality checks in the
code compare a point to its own updated copy, for which the list model is
faithful).
-/

namespace TinyFluxVerif

/-- Timestamps, modelled as integers (a totally ordered time axis). -/
abbrev Time := Int

/-- Modelled from the spec: a `Point` is a single observation with a
timestamp (absent until insertion fills it in), a measurement name, a
string-valued tag mapping and a numeric-valued field mapping (spec section 3). -/
structure Point where
  time : Option Time
  measurement : String
  tags : List (String × String)
  fields : List (String × Int)
deriving DecidableEq

/-- Modelled from the spec: opaque storage records (spec section 6).
`record p` is the serialized record of the point `p` (the result of the
storage serializer).  `obj p` models a raw `Point` object sitting in a
buffer of records — possible in the dynamically typed source, where
`_update_helper`'s full-scan branch appends
`_storage._deserialize_storage_item(_point)` to the record buffer. -/
inductive Item where
  | record (p : Point)
  | obj (p : Point)
deriving DecidableEq

/-- Modelled from the spec: the storage serializer from point to record. -/
def serPoint (p : Point) : Item := Item.record p

/-- Modelled from the spec: the storage deserialization accessor recovering a
full point from a record.  On a raw point object it yields the point itself,
which is the behaviour of the in-memory backend (identity serialization). -/
def deserItem : Item → Point
  | Item.record p => p
  | Item.obj p => p

/-- Modelled from the spec: deserialization accessor recovering only the
timestamp of a record (a stored point always carries a timestamp; a missing
one is read as 0). -/
def deserTime (it : Item) : Time := (deserItem it).time.getD 0

/-- Modelled from the spec: deserialization accessor recovering only the
measurement name of a record. -/
def deserMeas (it : Item) : String := (deserItem it).measurement

/-- Whether a list of timestamps is non-decreasing. -/
def timesChain : List Time → Bool
  | [] => true
  | [_] => true
  | a :: b :: rest => decide (a ≤ b) && timesChain (b :: rest)

/-- Modelled from the spec: the storage backend (spec section 6) — an ordered
append-only sequence of records, an `index_intact` flag reporting whether the
on-disk data is known sorted, and capability flags gating append/write. -/
structure Storage where
  items : List Item
  indexIntact : Bool
  canAppend : Bool
  canWrite : Bool
deriving DecidableEq

/-- Modelled from the spec: `append` adds points (serialized) to the end and
reports whether global sort order survived, relative to the existing tail. -/
def Storage.append (s : Storage) (pts : List Point) : Storage :=
  let newTimes := pts.map (fun p => p.time.getD 0)
  let ok := match (s.items.map deserTime).getLast? with
            | some t => timesChain (t :: newTimes)
            | none => timesChain newTimes
  { s with items := s.items ++ pts.map serPoint,
           indexIntact := s.indexIntact && ok }

/-- Modelled from the spec: the full-replace write, taking a record list and a
"now sorted" flag. -/
def Storage.write (s : Storage) (its : List Item) (sortedFlag : Bool) : Storage :=
  { s with items := its, indexIntact := sortedFlag }

/-- Modelled from the spec: the reset operation clearing all contents (an
empty store is trivially sorted). -/
def Storage.reset (s : Storage) : Storage :=
  { s with items := [], indexIntact := true }

/-- Comparison operators appearing in time queries. -/
inductive Cmp where
  | lt | le | gt | ge | eq
deriving DecidableEq

def evalCmp (c : Cmp) (a b : Time) : Bool :=
  match c with
  | Cmp.lt => decide (a < b)
  | Cmp.le => decide (a ≤ b)
  | Cmp.gt => decide (b < a)
  | Cmp.ge => decide (b ≤ a)
  | Cmp.eq => decide (a = b)

/-- Modelled from the spec: query predicates as a closed set of node variants
(spec section 9): measurement equality, tag equality/existence, field
equality/existence, time comparisons, AND, OR, NOT, and the always-true
`noop` used by `update_all`. -/
inductive Query where
  | measEq (s : String)
  | tagEq (k v : String)
  | tagExists (k : String)
  | fieldEq (k : String) (v : Int)
  | fieldExists (k : String)
  | timeCmp (c : Cmp) (t : Time)
  | qand (a b : Query)
  | qor (a b : Query)
  | qnot (a : Query)
  | noop
deriving DecidableEq

/-- Modelled from the spec: evaluating a predicate on a point (spec section 6:
callable on a point returning a boolean). -/
def evalQ : Query → Point → Bool
  | Query.measEq s, p => p.measurement == s
  | Query.tagEq k v, p => p.tags.lookup k == some v
  | Query.tagExists k, p => (p.tags.lookup k).isSome
  | Query.fieldEq k v, p => p.fields.lookup k == some v
  | Query.fieldExists k, p => (p.fields.lookup k).isSome
  | Query.timeCmp c t, p =>
      match p.time with
      | some u => evalCmp c u t
      | none => false
  | Query.qand a b, p => evalQ a p && evalQ b p
  | Query.qor a b, p => evalQ a p || evalQ b p
  | Query.qnot a, p => !(evalQ a p)
  | Query.noop, _ => true

/-- Modelled from the spec: an `IndexResult` is a candidate position set plus
a completeness flag (spec section 3). -/
structure IndexResult where
  items : Finset Nat
  isComplete : Bool
deriving DecidableEq

/-- Modelled from the spec: the in-memory index — a validity flag plus derived
acceleration state, represented as the per-position attribute summaries
(position, attributes of the point indexed there). -/
structure Index where
  valid : Bool
  entries : List (Nat × Point)
deriving DecidableEq

def Index.len (idx : Index) : Nat := idx.entries.length

/-- The full position set held by the index. -/
def Index.positions (idx : Index) : Finset Nat :=
  (idx.entries.map Prod.fst).toFinset

/-- Modelled from the spec: `build` discards prior state, assigns positions in
iteration order and marks the index valid (spec section 4.1). -/
def Index.build (pts : List Point) : Index :=
  { valid := true, entries := pts.enum }

/-- Modelled from the spec: `insert` is an O(k) extension assigning the next
positions to the appended points (spec section 4.1). -/
def Index.insertPts (idx : Index) (pts : List Point) : Index :=
  { idx with entries := idx.entries ++ List.enumFrom idx.entries.length pts }

/-- Modelled from the spec: `remove` drops entries at the given positions
without renumbering the remaining ones (spec section 4.1). -/
def Index.removePos (idx : Index) (rs : Finset Nat) : Index :=
  { idx with entries := idx.entries.filter (fun e => decide (e.1 ∉ rs)) }

/-- Modelled from the spec: `remap`, applied after `remove`, renumbers the
kept positions according to the old-to-new table (spec section 4.1). -/
def Index.remapPos (idx : Index) (m : List (Nat × Nat)) : Index :=
  { idx with entries := idx.entries.map (fun e => ((m.lookup e.1).getD e.1, e.2)) }

/-- Modelled from the spec: `invalidate` sets `valid` to false and leaves all
other fields stale (spec section 4.1). -/
def Index.invalidate (idx : Index) : Index :=
  { idx with valid := false }

/-- Modelled from the spec: the reset used when the database is cleared —
the index becomes valid and empty (spec section 4.4). -/
def Index.resetIdx : Index :=
  { valid := true, entries := [] }

/-- Modelled from the spec: `search` structurally inspects the predicate
(spec section 4.1).  Measurement equality and tag equality/existence resolve
exactly; field and time comparisons only narrow candidates; AND intersects,
OR unions (complete = AND of children); NOT and unrecognized shapes return
the full position set, incomplete. -/
def Index.search (idx : Index) : Query → IndexResult
  | Query.measEq s =>
      { items := ((idx.entries.filter (fun e => e.2.measurement == s)).map Prod.fst).toFinset,
        isComplete := true }
  | Query.tagEq k v =>
      { items := ((idx.entries.filter (fun e => e.2.tags.lookup k == some v)).map Prod.fst).toFinset,
        isComplete := true }
  | Query.tagExists k =>
      { items := ((idx.entries.filter (fun e => (e.2.tags.lookup k).isSome)).map Prod.fst).toFinset,
        isComplete := true }
  | Query.fieldEq k _ =>
      { items := ((idx.entries.filter (fun e => (e.2.fields.lookup k).isSome)).map Prod.fst).toFinset,
        isComplete := false }
  | Query.fieldExists k =>
      { items := ((idx.entries.filter (fun e => (e.2.fields.lookup k).isSome)).map Prod.fst).toFinset,
        isComplete := false }
  | Query.timeCmp c t =>
      { items := ((idx.entries.filter (fun e =>
          match e.2.time with
          | some u => evalCmp c u t
          | none => false)).map Prod.fst).toFinset,
        isComplete := false }
  | Query.qand a b =>
      let ra := idx.search a
      let rb := idx.search b
      { items := ra.items ∩ rb.items, isComplete := ra.isComplete && rb.isComplete }
  | Query.qor a b =>
      let ra := idx.search a
      let rb := idx.search b
      { items := ra.items ∪ rb.items, isComplete := ra.isComplete && rb.isComplete }
  | Query.qnot _ => { items := idx.positions, isComplete := false }
  | Query.noop => { items := idx.positions, isComplete := false }

/-- Error outcomes raised by the coordinator (`TypeError`, `ValueError` and
failed `assert`, as in the source). -/
inductive Err where
  | typeError
  | valueError
  | assertionError
deriving DecidableEq

/-- Decidable equality of `Except` results, so that concrete runs of the
embedded operations can be checked by `decide`. -/
instance exceptDecEq {ε α : Type} [DecidableEq ε] [DecidableEq α] :
    DecidableEq (Except ε α) := fun a b =>
  match a, b with
  | Except.ok x, Except.ok y =>
      if h : x = y then Decidable.isTrue (by rw [h])
      else Decidable.isFalse (by simp [h])
  | Except.error x, Except.error y =>
      if h : x = y then Decidable.isTrue (by rw [h])
      else Decidable.isFalse (by simp [h])
  | Except.ok _, Except.error _ => Decidable.isFalse (by simp)
  | Except.error _, Except.ok _ => Decidable.isFalse (by simp)

/-- The database handle: the `auto_index` mode flag, the storage backend, the
index, and the cached measurement handles (`_measurements`, tracked by name). -/
structure DB where
  autoIndex : Bool
  storage : Storage
  index : Index
  measurements : List String
deriving DecidableEq

/-- Python truthiness of an optional measurement-name argument:
`None` and the empty string are falsy (`if measurement:` in the source). -/
def measTruthy : Option String → Bool
  | none => false
  | some s => !s.isEmpty

/-- The measurement pre-filter of the linear-scan branches:
`if measurement and deserialize_measurement(item) != measurement: continue`
(the item is skipped when the filter is truthy and the names differ). -/
def skipByMeas (m : Option String) (it : Item) : Bool :=
  match m with
  | none => false
  | some s => !s.isEmpty && !(deserMeas it == s)

/-- The index-search prologue shared by every read/write coordinator: with a
truthy measurement argument the measurement-equality clause is ANDed into the
query (`mq & query`) before `Index.search` is called. -/
def searchWithMeas (idx : Index) (q : Query) (m : Option String) : IndexResult :=
  match m with
  | some s => if s.isEmpty then idx.search q else idx.search (Query.qand (Query.measEq s) q)
  | none => idx.search q

/-- `contains`, index-assisted scan (source lines 226-244): skip
non-candidates, stop at the first match, stop after the last candidate. -/
def containsGo (q : Query) (rst : IndexResult) : List Item → Nat → Nat → Bool
  | [], _, _ => false
  | it :: rest, i, j =>
      if i ∉ rst.items then containsGo q rst rest (i + 1) j
      else if evalQ q (deserItem it) then true
      else if j + 1 = rst.items.card then false
      else containsGo q rst rest (i + 1) (j + 1)

/-- `contains`, full linear scan (source lines 247-262): measurement
pre-filter, then stop at the first predicate match. -/
def containsLin (q : Query) (m : Option String) : List Item → Bool
  | [] => false
  | it :: rest =>
      if skipByMeas m it then containsLin q m rest
      else if evalQ q (deserItem it) then true
      else containsLin q m rest

/-- `TinyFlux.contains` (source lines 184-264). -/
def DB.contains (q : Query) (m : Option String) (db : DB) : Bool × DB :=
  if db.index.valid then
    let rst := searchWithMeas db.index q m
    if rst.items = ∅ then (false, db)
    else if rst.isComplete then (true, db)
    else if rst.items.card = db.index.len then (containsLin q m db.storage.items, db)
    else (containsGo q rst db.storage.items 0 0, db)
  else (containsLin q m db.storage.items, db)

/-- `count`, index-assisted scan (source lines 305-322). -/
def countGo (q : Query) (rst : IndexResult) : List Item → Nat → Nat → Nat → Nat
  | [], _, _, acc => acc
  | it :: rest, i, j, acc =>
      if i ∉ rst.items then countGo q rst rest (i + 1) j acc
      else
        let acc := if evalQ q (deserItem it) then acc + 1 else acc
        if j + 1 = rst.items.card then acc
        else countGo q rst rest (i + 1) (j + 1) acc

/-- `count`, full linear scan (source lines 325-338). -/
def countLin (q : Query) (m : Option String) : List Item → Nat
  | [] => 0
  | it :: rest =>
      if skipByMeas m it then countLin q m rest
      else if evalQ q (deserItem it) then countLin q m rest + 1
      else countLin q m rest

/-- `TinyFlux.count` (source lines 266-340). -/
def DB.count (q : Query) (m : Option String) (db : DB) : Nat × DB :=
  if db.index.valid then
    let rst := searchWithMeas db.index q m
    if rst.items = ∅ then (0, db)
    else if rst.isComplete then (rst.items.card, db)
    else if rst.items.card = db.index.len then (countLin q m db.storage.items, db)
    else (countGo q rst db.storage.items 0 0 0, db)
  else (countLin q m db.storage.items, db)

/-- `get`, index-assisted scan (source lines 411-436): a complete candidate is
returned without re-evaluation; otherwise the first matching candidate is
returned; the scan stops after the last candidate. -/
def getGo (q : Query) (rst : IndexResult) : List Item → Nat → Nat → Option Point
  | [], _, _ => none
  | it :: rest, i, j =>
      if i ∉ rst.items then getGo q rst rest (i + 1) j
      else if rst.isComplete then some (deserItem it)
      else
        let p := deserItem it
        if evalQ q p then some p
        else if j + 1 = rst.items.card then none
        else getGo q rst rest (i + 1) (j + 1)

/-- `get`, full linear scan (source lines 441-455).  Note the source does not
break out of this loop on a match: a later match overwrites an earlier one,
so the accumulator carries the latest match seen so far. -/
def getLin (q : Query) (m : Option String) : List Item → Option Point → Option Point
  | [], acc => acc
  | it :: rest, acc =>
      if skipByMeas m it then getLin q m rest acc
      else
        let p := deserItem it
        if evalQ q p then getLin q m rest (some p)
        else getLin q m rest acc

/-- `TinyFlux.get` (source lines 374-456). -/
def DB.get (q : Query) (m : Option String) (db : DB) : Option Point × DB :=
  if db.index.valid then
    let rst := searchWithMeas db.index q m
    if rst.items = ∅ then (none, db)
    else if rst.items.card = db.index.len then (getLin q m db.storage.items none, db)
    else (getGo q rst db.storage.items 0 0, db)
  else (getLin q m db.storage.items none, db)

/-- `search`, index-assisted scan (source lines 834-853). -/
def searchGo (q : Query) (rst : IndexResult) : List Item → Nat → Nat → List Point
  | [], _, _ => []
  | it :: rest, i, j =>
      if i ∉ rst.items then searchGo q rst rest (i + 1) j
      else
        let p := deserItem it
        if rst.isComplete || evalQ q p then
          if j + 1 = rst.items.card then [p]
          else p :: searchGo q rst rest (i + 1) (j + 1)
        else
          if j + 1 = rst.items.card then []
          else searchGo q rst rest (i + 1) (j + 1)

/-- `search`, full linear scan (source lines 856-871). -/
def searchLin (q : Query) (m : Option String) : List Item → List Point
  | [] => []
  | it :: rest =>
      if skipByMeas m it then searchLin q m rest
      else
        let p := deserItem it
        if evalQ q p then p :: searchLin q m rest
        else searchLin q m rest

/-- `TinyFlux.search` (source lines 798-873). -/
def DB.search (q : Query) (m : Option String) (db : DB) : List Point × DB :=
  if db.index.valid then
    let rst := searchWithMeas db.index q m
    if rst.items = ∅ then ([], db)
    else if rst.items.card = db.index.len then (searchLin q m db.storage.items, db)
    else (searchGo q rst db.storage.items 0 0, db)
  else (searchLin q m db.storage.items, db)

/-- An argument that should be a `Point`: the dynamically typed source may be
handed any value, and raises `TypeError` on a non-point (`bad`). -/
inductive PVal where
  | pt (p : Point)
  | bad
deriving DecidableEq

/-- `TinyFlux._insert_point` (source lines 1021-1043): run the updater to
build the list of new points (any exception propagates before storage is
touched), append them to storage, then maintain or invalidate the index. -/
def insertPointHelper (mk : Except Err (List Point)) (db : DB) : Except Err DB :=
  match mk with
  | Except.error e => Except.error e
  | Except.ok newPoints =>
    let storage := db.storage.append newPoints
    let index :=
      if db.autoIndex && db.index.valid then
        if storage.indexIntact then db.index.insertPts newPoints
        else db.index.invalidate
      else db.index
    let index :=
      if !db.autoIndex && index.valid then index.invalidate
      else index
    Except.ok { db with storage := storage, index := index }

/-- `if not point.time: point.time = now` (source lines 480-481):
`None` is falsy, a datetime is always truthy. -/
def insTimeFix (p : Point) (now : Time) : Point :=
  if p.time.isNone then { p with time := some now } else p

/-- `if measurement and point.measurement != measurement: ...` (source lines
484-485 and 525-526): overwrite the measurement when the argument is truthy
(present and non-empty) and differs. -/
def insMeasFix (p : Point) (m : Option String) : Point :=
  match m with
  | some s => if !s.isEmpty && !(p.measurement == s) then { p with measurement := s } else p
  | none => p

/-- `TinyFlux.insert` (source lines 458-495).  The caller's point object is
mutated in place — time fix-up first, then measurement fix-up; the mutated
point is returned as the middle component to model that in-place mutation. -/
def DB.insert (v : PVal) (m : Option String) (now : Time) (db : DB) :
    Except Err (Nat × Point × DB) :=
  if !db.storage.canAppend then Except.error Err.assertionError
  else match v with
  | PVal.bad => Except.error Err.typeError
  | PVal.pt p =>
    let p := insMeasFix (insTimeFix p now) m
    match insertPointHelper (Except.ok [p]) db with
    | Except.error e => Except.error e
    | Except.ok db' => Except.ok (1, p, db')

/-- The updater closure of `TinyFlux.insert_multiple` (source lines 516-534):
per value, the type check, then the measurement fix-up, then the time fix-up;
the list of points to append and the running count are produced, or a
`TypeError` propagates at the first non-point value. -/
def buildInsertList (m : Option String) (t : Time) : List PVal → Except Err (List Point × Nat)
  | [] => Except.ok ([], 0)
  | PVal.bad :: _ => Except.error Err.typeError
  | PVal.pt p :: rest =>
    let p := insTimeFix (insMeasFix p m) t
    match buildInsertList m t rest with
    | Except.error e => Except.error e
    | Except.ok (ps, c) => Except.ok (p :: ps, c + 1)

/-- `TinyFlux.insert_multiple` (source lines 497-538). -/
def DB.insertMultiple (vs : List PVal) (m : Option String) (now : Time) (db : DB) :
    Except Err (Nat × DB) :=
  if !db.storage.canAppend then Except.error Err.assertionError
  else
    let r := buildInsertList m now vs
    match insertPointHelper (r.map Prod.fst) db with
    | Except.error e => Except.error e
    | Except.ok db' =>
        match r with
        | Except.ok (_, c) => Except.ok (c, db')
        | Except.error e => Except.error e

/-- `TinyFlux._reset_database` (source lines 1045-1059): clear storage, clear
the cached measurement handles, and reset the index (valid-and-empty) in
auto-index mode or invalidate it otherwise. -/
def resetDatabase (db : DB) : DB :=
  { db with storage := db.storage.reset,
            measurements := [],
            index := if db.autoIndex then Index.resetIdx else db.index.invalidate }

/-- The accumulator of the `remove` scan: positions marked for removal
(`filtered_items`), the old-to-new position table (`updated_items`), the kept
records (`temp_memory`) and the running new position (`new_index`). -/
structure RemoveAcc where
  filtered : Finset Nat
  updated : List (Nat × Nat)
  temp : List Item
  newIndex : Nat
deriving DecidableEq

/-- Keeping an item in the `remove` scan: append it to the kept records,
record its new position when it shifted, bump the new position counter. -/
def keepItem (acc : RemoveAcc) (i : Nat) (it : Item) : RemoveAcc :=
  { acc with
      temp := acc.temp ++ [it],
      updated := if i ≠ acc.newIndex then acc.updated ++ [(i, acc.newIndex)] else acc.updated,
      newIndex := acc.newIndex + 1 }

/-- `remove`, index-assisted scan (source lines 679-714): once the candidate
counter exhausts the candidate set or the position is not a candidate the
item is kept; a complete candidate, or a candidate satisfying the query, is
marked for removal; other candidates are kept. -/
def removeGoIdx (q : Query) (rst : IndexResult) :
    List Item → Nat → Nat → RemoveAcc → RemoveAcc
  | [], _, _, acc => acc
  | it :: rest, i, j, acc =>
      if j = rst.items.card || i ∉ rst.items then
        removeGoIdx q rst rest (i + 1) j (keepItem acc i it)
      else
        let acc :=
          if rst.isComplete then { acc with filtered := insert i acc.filtered }
          else if evalQ q (deserItem it) then { acc with filtered := insert i acc.filtered }
          else keepItem acc i it
        removeGoIdx q rst rest (i + 1) (j + 1) acc

/-- `remove`, full linear scan (source lines 717-745): an item kept by the
measurement pre-filter bypasses the position bookkeeping entirely (as in the
source); matches are marked for removal; kept matches update the position
table only in auto-index mode. -/
def removeGoLin (q : Query) (m : Option String) (autoIdx : Bool) :
    List Item → Nat → RemoveAcc → RemoveAcc
  | [], _, acc => acc
  | it :: rest, i, acc =>
      if skipByMeas m it then
        removeGoLin q m autoIdx rest (i + 1) { acc with temp := acc.temp ++ [it] }
      else if evalQ q (deserItem it) then
        removeGoLin q m autoIdx rest (i + 1) { acc with filtered := insert i acc.filtered }
      else if autoIdx then
        removeGoLin q m autoIdx rest (i + 1) (keepItem acc i it)
      else
        removeGoLin q m autoIdx rest (i + 1) { acc with temp := acc.temp ++ [it] }

/-- Stable insertion of a record into a record list sorted by timestamp. -/
def insertSorted (x : Item) : List Item → List Item
  | [] => [x]
  | y :: ys => if deserTime x ≤ deserTime y then x :: y :: ys else y :: insertSorted x ys

/-- `temp_memory.sort(key=deserialize_timestamp)`: a stable sort of records
by timestamp. -/
def sortByTime (its : List Item) : List Item := its.foldr insertSorted []

/-- The tail of `TinyFlux.remove` after the scan (source lines 747-785):
nothing removed is a no-op; nothing kept resets the database; otherwise the
kept records are persisted and the index is rebuilt (was invalid),
incrementally pruned and remapped (was valid), or invalidated (auto-index
off). -/
def removeFinish (acc : RemoveAcc) (db : DB) : Except Err (Nat × DB) :=
  if acc.filtered = ∅ then Except.ok (0, db)
  else if acc.temp = [] then Except.ok (acc.filtered.card, resetDatabase db)
  else if db.autoIndex && !db.index.valid then
    let temp := sortByTime acc.temp
    Except.ok (acc.filtered.card,
      { db with storage := db.storage.write temp true,
                index := Index.build (temp.map deserItem) })
  else if db.autoIndex && db.index.valid then
    Except.ok (acc.filtered.card,
      { db with storage := db.storage.write acc.temp true,
                index := (db.index.removePos acc.filtered).remapPos acc.updated })
  else
    Except.ok (acc.filtered.card,
      { db with storage := db.storage.write acc.temp db.index.valid,
                index := db.index.invalidate })

/-- `TinyFlux.remove` (source lines 635-785). -/
def DB.remove (q : Query) (m : Option String) (db : DB) : Except Err (Nat × DB) :=
  if !db.storage.canWrite then Except.error Err.assertionError
  else if db.index.valid then
    let rst := searchWithMeas db.index q m
    if rst.items = ∅ then Except.ok (0, db)
    else if rst.items.card = db.index.len then
      removeFinish (removeGoLin q m db.autoIndex db.storage.items 0 ⟨∅, [], [], 0⟩) db
    else
      removeFinish (removeGoIdx q rst db.storage.items 0 0 ⟨∅, [], [], 0⟩) db
  else
    removeFinish (removeGoLin q m db.autoIndex db.storage.items 0 ⟨∅, [], [], 0⟩) db

/-- A callable-or-literal time update argument (spec section 9: tagged
variant `Literal(value) | Derive(function)`).  A literal datetime is always
truthy in Python, and the derivation is applied to the point's current time. -/
inductive TimeArg where
  | lit (t : Time)
  | fn (f : Option Time → Time)

/-- A callable-or-literal measurement update argument. -/
inductive MeasArg where
  | lit (s : String)
  | fn (f : String → String)

/-- A callable-or-literal tags update argument. -/
inductive TagsArg where
  | lit (m : List (String × String))
  | fn (f : List (String × String) → List (String × String))

/-- A callable-or-literal fields update argument. -/
inductive FieldsArg where
  | lit (m : List (String × Int))
  | fn (f : List (String × Int) → List (String × Int))

/-- Python truthiness of the `time` argument (`if time:`): absent is falsy,
a datetime literal or a callable is truthy. -/
def timeArgTruthy : Option TimeArg → Bool
  | none => false
  | some _ => true

/-- Python truthiness of the `measurement` argument: absent and the empty
string literal are falsy. -/
def measArgTruthy : Option MeasArg → Bool
  | none => false
  | some (MeasArg.lit s) => !s.isEmpty
  | some (MeasArg.fn _) => true

/-- Python truthiness of the `tags` argument: absent and the empty mapping
literal are falsy. -/
def tagsArgTruthy : Option TagsArg → Bool
  | none => false
  | some (TagsArg.lit m) => !m.isEmpty
  | some (TagsArg.fn _) => true

/-- Python truthiness of the `fields` argument: absent and the empty mapping
literal are falsy. -/
def fieldsArgTruthy : Option FieldsArg → Bool
  | none => false
  | some (FieldsArg.lit m) => !m.isEmpty
  | some (FieldsArg.fn _) => true

/-- `dict.update`: existing keys are overwritten in place, new keys are
appended in the update's order. -/
def updateMap {α : Type} (m upd : List (String × α)) : List (String × α) :=
  m.map (fun kv =>
    match upd.lookup kv.1 with
    | some v => (kv.1, v)
    | none => kv)
  ++ upd.filter (fun kv => (m.lookup kv.1).isNone)

/-- The argument validation of `TinyFlux._generate_updater` (source lines
952-976), restricted to the checks expressible in a typed embedding: at least
one of time/measurement/tags/fields must be (truthily) given, else
`ValueError`.  The remaining source checks — query is a Query object, a time
literal is a datetime, a measurement literal a string, tag values strings,
field values numeric — are enforced by the types of the embedding. -/
def generateUpdaterCheck (time : Option TimeArg) (meas : Option MeasArg)
    (tags : Option TagsArg) (fields : Option FieldsArg) : Except Err Unit :=
  if !(timeArgTruthy time || measArgTruthy meas || tagsArgTruthy tags || fieldsArgTruthy fields)
  then Except.error Err.valueError
  else Except.ok ()

/-- The `perform_update` closure of `_generate_updater` (source lines
979-1017): apply each truthy argument in order (time, measurement, tags,
fields; mappings are merged, not replaced), and report whether the point
changed at all and whether its timestamp changed. -/
def performUpdate (time : Option TimeArg) (meas : Option MeasArg)
    (tags : Option TagsArg) (fields : Option FieldsArg) (p : Point) :
    Point × Bool × Bool :=
  let old := p
  let p :=
    match time with
    | some (TimeArg.lit t) => { p with time := some t }
    | some (TimeArg.fn f) => { p with time := some (f p.time) }
    | none => p
  let p :=
    match meas with
    | some (MeasArg.lit s) => if s.isEmpty then p else { p with measurement := s }
    | some (MeasArg.fn f) => { p with measurement := f p.measurement }
    | none => p
  let p :=
    match tags with
    | some (TagsArg.lit m2) => if m2.isEmpty then p else { p with tags := updateMap p.tags m2 }
    | some (TagsArg.fn f) => { p with tags := updateMap p.tags (f p.tags) }
    | none => p
  let p :=
    match fields with
    | some (FieldsArg.lit m2) => if m2.isEmpty then p else { p with fields := updateMap p.fields m2 }
    | some (FieldsArg.fn f) => { p with fields := updateMap p.fields (f p.fields) }
    | none => p
  (p, decide (p ≠ old), decide (p.time ≠ old.time))

/-- The accumulator of the update scan: the rewrite buffer, the count of
changed points, and whether any timestamp changed. -/
structure UpdateAcc where
  temp : List Item
  count : Nat
  timeUpd : Bool
deriving DecidableEq

/-- `_update_helper`, index-assisted scan (source lines 1124-1159): a
non-candidate passes through; a complete candidate or a true match is
mutated; if it actually changed, its serialized form (`_serialize_point`)
enters the rewrite buffer; otherwise the original record passes through.
The candidate counter `j` is bumped only on the pass-through path, exactly
as in the source. -/
def updateGoIdx (q : Query) (rst : IndexResult) (upd : Point → Point × Bool × Bool) :
    List Item → Nat → Nat → UpdateAcc → UpdateAcc
  | [], _, _, acc => acc
  | it :: rest, i, j, acc =>
      if j = rst.items.card || i ∉ rst.items then
        updateGoIdx q rst upd rest (i + 1) j { acc with temp := acc.temp ++ [it] }
      else
        let p := deserItem it
        if rst.isComplete || evalQ q p then
          let r := upd p
          if r.2.1 then
            updateGoIdx q rst upd rest (i + 1) j
              { temp := acc.temp ++ [serPoint r.1],
                count := acc.count + 1,
                timeUpd := acc.timeUpd || r.2.2 }
          else
            updateGoIdx q rst upd rest (i + 1) (j + 1) { acc with temp := acc.temp ++ [it] }
        else
          updateGoIdx q rst upd rest (i + 1) (j + 1) { acc with temp := acc.temp ++ [it] }

/-- `_update_helper`, full linear scan (source lines 1164-1197).  Note: for a
changed point the source appends `_storage._deserialize_storage_item(_point)`
— the deserializer applied to the raw point object — to the rewrite buffer,
not `_serialize_point(_point)`; this is modelled by `Item.obj`. -/
def updateGoLin (q : Query) (m : Option String) (updateAll : Bool)
    (upd : Point → Point × Bool × Bool) : List Item → UpdateAcc → UpdateAcc
  | [], acc => acc
  | it :: rest, acc =>
      if skipByMeas m it then
        updateGoLin q m updateAll upd rest { acc with temp := acc.temp ++ [it] }
      else
        let p := deserItem it
        if updateAll || evalQ q p then
          let r := upd p
          if r.2.1 then
            updateGoLin q m updateAll upd rest
              { temp := acc.temp ++ [Item.obj r.1],
                count := acc.count + 1,
                timeUpd := acc.timeUpd || r.2.2 }
          else
            updateGoLin q m updateAll upd rest { acc with temp := acc.temp ++ [it] }
        else
          updateGoLin q m updateAll upd rest { acc with temp := acc.temp ++ [it] }

/-- The tail of `_update_helper` after the scan (source lines 1199-1229):
no change is a no-op; otherwise the buffer is persisted (re-sorted by
timestamp when a timestamp changed or the index was invalid, in auto-index
mode), and in auto-index mode the index is rebuilt wholesale from the
buffer.  Without auto-indexing the index is left untouched. -/
def updateFinish (acc : UpdateAcc) (db : DB) : Except Err (Nat × DB) :=
  if acc.count = 0 then Except.ok (0, db)
  else
    let db' :=
      if db.autoIndex && (acc.timeUpd || !db.index.valid) then
        { db with storage := db.storage.write (sortByTime acc.temp) true }
      else
        { db with storage := db.storage.write acc.temp db.index.valid }
    let db' :=
      if db.autoIndex then
        { db' with index := Index.build (db'.storage.items.map deserItem) }
      else db'
    Except.ok (acc.count, db')

/-- `TinyFlux._update_helper` (source lines 1061-1229). -/
def updateHelper (updateAll : Bool) (q : Query) (time : Option TimeArg)
    (meas : Option MeasArg) (tags : Option TagsArg) (fields : Option FieldsArg)
    (m : Option String) (db : DB) : Except Err (Nat × DB) :=
  match generateUpdaterCheck time meas tags fields with
  | Except.error e => Except.error e
  | Except.ok _ =>
    let upd := performUpdate time meas tags fields
    if !updateAll && db.index.valid then
      let rst := searchWithMeas db.index q m
      if rst.items = ∅ then Except.ok (0, db)
      else if rst.items.card = db.index.len then
        updateFinish (updateGoLin q m updateAll upd db.storage.items ⟨[], 0, false⟩) db
      else
        updateFinish (updateGoIdx q rst upd db.storage.items 0 0 ⟨[], 0, false⟩) db
    else
      updateFinish (updateGoLin q m updateAll upd db.storage.items ⟨[], 0, false⟩) db

/-- `TinyFlux.update` (source lines 875-903). -/
def DB.update (q : Query) (time : Option TimeArg) (meas : Option MeasArg)
    (tags : Option TagsArg) (fields : Option FieldsArg) (m : Option String)
    (db : DB) : Except Err (Nat × DB) :=
  if !db.storage.canWrite then Except.error Err.assertionError
  else updateHelper false q time meas tags fields m db

/-- `TinyFlux.update_all` (source lines 905-930): a forced full scan against
the always-true `noop` query, no measurement filter. -/
def DB.updateAll (time : Option TimeArg) (meas : Option MeasArg)
    (tags : Option TagsArg) (fields : Option FieldsArg) (db : DB) :
    Except Err (Nat × DB) :=
  if !db.storage.canWrite then Except.error Err.assertionError
  else updateHelper true Query.noop time meas tags fields none db

/-- The sortedness scan of `TinyFlux.reindex` (source lines 600-615): track
the last timestamp; an out-of-order record clears the sorted flag, after
which the check is skipped. -/
def reindexScan : List Item → Option Time → Bool → Bool
  | [], _, sorted => sorted
  | it :: rest, last, sorted =>
      if sorted then
        let t := deserTime it
        match last with
        | some lt => if t < lt then reindexScan rest last false
                     else reindexScan rest (some t) true
        | none => reindexScan rest (some t) true
      else reindexScan rest last sorted

/-- `TinyFlux.reindex` (source lines 584-633): a no-op on a valid index;
otherwise sort-and-rewrite storage when it was unsorted, then rebuild the
index from the records. -/
def DB.reindex (db : DB) : Except Err DB :=
  if !db.storage.canWrite then Except.error Err.assertionError
  else if db.index.valid then Except.ok db
  else
    let temp := db.storage.items
    if reindexScan temp none true then
      Except.ok { db with index := Index.build (temp.map deserItem) }
    else
      let temp := sortByTime temp
      Except.ok { db with storage := db.storage.write temp true,
                          index := Index.build (temp.map deserItem) }

/-- The mutating operations named by the invariants. -/
inductive MutOp where
  | ins (v : PVal) (m : Option String) (now : Time)
  | insMany (vs : List PVal) (m : Option String) (now : Time)
  | rem (q : Query) (m : Option String)
  | upd (q : Query) (time : Option TimeArg) (meas : Option MeasArg)
        (tags : Option TagsArg) (fields : Option FieldsArg) (m : Option String)
  | updAll (time : Option TimeArg) (meas : Option MeasArg)
           (tags : Option TagsArg) (fields : Option FieldsArg)
  | reidx

/-- Run one mutating operation, returning its count (0 for `reindex`) and
the post-state. -/
def runMut : MutOp → DB → Except Err (Nat × DB)
  | MutOp.ins v m now, db => (DB.insert v m now db).map (fun r => (r.1, r.2.2))
  | MutOp.insMany vs m now, db => DB.insertMultiple vs m now db
  | MutOp.rem q m, db => DB.remove q m db
  | MutOp.upd q t me ta f m, db => DB.update q t me ta f m db
  | MutOp.updAll t me ta f, db => DB.updateAll t me ta f db
  | MutOp.reidx, db => (DB.reindex db).map (fun d => (0, d))

/-! ## Concrete states used by counterexamples and witnesses -/

/-- A point at time 1 with field a = 1. -/
def cexP1 : Point := ⟨some 1, "m", [], [("a", 1)]⟩

/-- A point at time 2 with field a = 1. -/
def cexP2 : Point := ⟨some 2, "m", [], [("a", 1)]⟩

/-- A database whose index is invalid, holding `cexP1` then `cexP2`; every
read on it takes the full-linear-scan path. -/
def cexGetDB : DB :=
  ⟨false, ⟨[Item.record cexP1, Item.record cexP2], false, true, true⟩, ⟨false, []⟩, []⟩

/-- A point at time 1 with field k = 1. -/
def updP : Point := ⟨some 1, "m", [], [("k", 1)]⟩

/-- `updP` after `update(fields=dict(k=5))`. -/
def updPNew : Point := ⟨some 1, "m", [], [("k", 5)]⟩

/-- A database with an invalid index holding only `updP`: updates on it take
the full-linear-scan branch. -/
def updDB : DB := ⟨false, ⟨[Item.record updP], false, true, true⟩, ⟨false, []⟩, []⟩

/-- The state `updDB` reaches after `update(noop, fields=dict(k=5))`: the
rewrite buffer received the raw point object, not its serialized record. -/
def updDBRes : DB := ⟨false, ⟨[Item.obj updPNew], false, true, true⟩, ⟨false, []⟩, []⟩

/-! ## Claim theorems -/

/-- C10: every read-path operation (`contains`, `count`, `get`, `search`)
leaves the whole database state — storage contents and index state included —
unchanged, for every query, measurement filter and starting state.  The
source methods never assign to any field of the database, which the
embedding reflects by returning the input state at every exit. -/
theorem read_ops_leave_state_unchanged (q : Query) (m : Option String) (db : DB) :
    (DB.contains q m db).2 = db ∧ (DB.count q m db).2 = db ∧
    (DB.get q m db).2 = db ∧ (DB.search q m db).2 = db := by
  refine ⟨?_, ?_, ?_, ?_⟩
  · unfold DB.contains
    dsimp only
    repeat' split
    all_goals rfl
  · unfold DB.count
    dsimp only
    repeat' split
    all_goals rfl
  · unfold DB.get
    dsimp only
    repeat' split
    all_goals rfl
  · unfold DB.search
    dsimp only
    repeat' split
    all_goals rfl

/-- C7: `update` and `update_all` called with none of time, measurement,
tags or fields raise `ValueError` from the argument validation, which runs
before any record is read: the result is an error for every database state
and query, so no point is examined and no mutation is performed (the
embedding returns the error without constructing any successor state). -/
theorem update_no_attributes_value_error (q : Query) (m : Option String) (db : DB)
    (hw : db.storage.canWrite = true) :
    DB.update q none none none none m db = Except.error Err.valueError ∧
    DB.updateAll none none none none db = Except.error Err.valueError := by
  unfold DB.update DB.updateAll
  rw [hw]
  exact ⟨rfl, rfl⟩

/-- C7 witness: the validation error on a concrete database. -/
theorem update_no_attributes_value_error_witness :
    DB.update Query.noop none none none none none updDB = Except.error Err.valueError ∧
    DB.updateAll none none none none updDB = Except.error Err.valueError :=
  update_no_attributes_value_error Query.noop none updDB (by decide)

/-- The index-assisted search scan yields a sublist of the deserialized
storage items: each step either skips the current item or emits its point. -/
theorem searchGo_sublist (q : Query) (rst : IndexResult) :
    ∀ (its : List Item) (i j : Nat),
      List.Sublist (searchGo q rst its i j) (its.map deserItem)
  | [], _, _ => List.Sublist.refl _
  | it :: rest, i, j => by
      unfold searchGo
      split
      · exact List.Sublist.cons _ (searchGo_sublist q rst rest (i + 1) j)
      · dsimp only
        split
        · split
          · exact List.Sublist.cons₂ _ (List.nil_sublist _)
          · exact List.Sublist.cons₂ _ (searchGo_sublist q rst rest (i + 1) (j + 1))
        · split
          · exact List.nil_sublist _
          · exact List.Sublist.cons _ (searchGo_sublist q rst rest (i + 1) (j + 1))

/-- The linear search scan yields a sublist of the deserialized storage
items. -/
theorem searchLin_sublist (q : Query) (m : Option String) :
    ∀ (its : List Item), List.Sublist (searchLin q m its) (its.map deserItem)
  | [] => List.Sublist.refl _
  | it :: rest => by
      unfold searchLin
      split
      · exact List.Sublist.cons _ (searchLin_sublist q m rest)
      · dsimp only
        split
        · exact List.Sublist.cons₂ _ (searchLin_sublist q m rest)
        · exact List.Sublist.cons _ (searchLin_sublist q m rest)

/-- C6: for every query issued while the index is valid, under the invariant
that a valid index implies storage is sorted ascending by timestamp, the list
returned by `search` is in non-decreasing timestamp order: both scan shapes
emit points in storage iteration order (a sublist of the sorted storage). -/
theorem search_sorted_on_sorted_storage (q : Query) (m : Option String) (db : DB)
    (hv : db.index.valid = true)
    (hs : List.Pairwise (fun a b => deserTime a ≤ deserTime b) db.storage.items) :
    List.Pairwise (fun p1 p2 : Point => p1.time.getD 0 ≤ p2.time.getD 0)
      (DB.search q m db).1 := by
  have hmap : List.Pairwise (fun p1 p2 : Point => p1.time.getD 0 ≤ p2.time.getD 0)
      (db.storage.items.map deserItem) :=
    List.pairwise_map.mpr hs
  unfold DB.search
  rw [hv, if_pos rfl]
  dsimp only
  split
  · exact List.Pairwise.nil
  · split
    · exact hmap.sublist (searchLin_sublist q m db.storage.items)
    · exact hmap.sublist (searchGo_sublist q _ db.storage.items 0 0)

/-- C6 witness: a concrete valid-index database with two sorted points, a
field query forcing the incomplete index path. -/
theorem search_sorted_on_sorted_storage_witness :
    List.Pairwise (fun p1 p2 : Point => p1.time.getD 0 ≤ p2.time.getD 0)
      (DB.search (Query.fieldEq "a" 1) none
        ⟨true, ⟨[Item.record cexP1, Item.record cexP2], true, true, true⟩,
          ⟨true, [(0, cexP1), (1, cexP2)]⟩, []⟩).1 :=
  search_sorted_on_sorted_storage (Query.fieldEq "a" 1) none
    ⟨true, ⟨[Item.record cexP1, Item.record cexP2], true, true, true⟩,
      ⟨true, [(0, cexP1), (1, cexP2)]⟩, []⟩ (by decide) (by decide)

/-- Index-search soundness: a position whose indexed point satisfies the
predicate is always a candidate (the candidate set over-approximates the
matches, spec section 3: an incomplete set is a superset). -/
theorem search_mem_of_eval (idx : Index) :
    ∀ (q : Query) (i : Nat) (p : Point), (i, p) ∈ idx.entries → evalQ q p = true →
      i ∈ (idx.search q).items
  | Query.measEq s, i, p, hm, he => by
      simp only [Index.search, List.mem_toFinset, List.mem_map]
      exact ⟨(i, p), List.mem_filter.mpr ⟨hm, he⟩, rfl⟩
  | Query.tagEq k v, i, p, hm, he => by
      simp only [Index.search, List.mem_toFinset, List.mem_map]
      exact ⟨(i, p), List.mem_filter.mpr ⟨hm, he⟩, rfl⟩
  | Query.tagExists k, i, p, hm, he => by
      simp only [Index.search, List.mem_toFinset, List.mem_map]
      exact ⟨(i, p), List.mem_filter.mpr ⟨hm, he⟩, rfl⟩
  | Query.fieldEq k v, i, p, hm, he => by
      simp only [Index.search, List.mem_toFinset, List.mem_map]
      refine ⟨(i, p), List.mem_filter.mpr ⟨hm, ?_⟩, rfl⟩
      have : (p.fields.lookup k == some v) = true := he
      simp only [beq_iff_eq] at this
      simp [this]
  | Query.fieldExists k, i, p, hm, he => by
      simp only [Index.search, List.mem_toFinset, List.mem_map]
      exact ⟨(i, p), List.mem_filter.mpr ⟨hm, he⟩, rfl⟩
  | Query.timeCmp c t, i, p, hm, he => by
      simp only [Index.search, List.mem_toFinset, List.mem_map]
      exact ⟨(i, p), List.mem_filter.mpr ⟨hm, he⟩, rfl⟩
  | Query.qand a b, i, p, hm, he => by
      have hab := Bool.and_eq_true_iff.mp he
      exact Finset.mem_inter.mpr
        ⟨search_mem_of_eval idx a i p hm hab.1, search_mem_of_eval idx b i p hm hab.2⟩
  | Query.qor a b, i, p, hm, he => by
      rcases Bool.or_eq_true_iff.mp he with h | h
      · exact Finset.mem_union_left _ (search_mem_of_eval idx a i p hm h)
      · exact Finset.mem_union_right _ (search_mem_of_eval idx b i p hm h)
  | Query.qnot _, i, p, hm, _ =>
      List.mem_toFinset.mpr (List.mem_map.mpr ⟨(i, p), hm, rfl⟩)
  | Query.noop, i, p, hm, _ =>
      List.mem_toFinset.mpr (List.mem_map.mpr ⟨(i, p), hm, rfl⟩)

/-- The positions of a filtered entry list are positions of the index. -/
theorem filter_positions_subset (idx : Index) (f : Nat × Point → Bool) :
    ((idx.entries.filter f).map Prod.fst).toFinset ⊆ idx.positions := by
  intro x hx
  rw [List.mem_toFinset, List.mem_map] at hx
  obtain ⟨e, he, hfst⟩ := hx
  exact List.mem_toFinset.mpr (List.mem_map.mpr ⟨e, (List.mem_filter.mp he).1, hfst⟩)

/-- Index-search candidates are always positions held by the index. -/
theorem search_items_subset (idx : Index) :
    ∀ q : Query, (idx.search q).items ⊆ idx.positions
  | Query.measEq _ => filter_positions_subset idx _
  | Query.tagEq _ _ => filter_positions_subset idx _
  | Query.tagExists _ => filter_positions_subset idx _
  | Query.fieldEq _ _ => filter_positions_subset idx _
  | Query.fieldExists _ => filter_positions_subset idx _
  | Query.timeCmp _ _ => filter_positions_subset idx _
  | Query.qand a _ => fun _ hx =>
      search_items_subset idx a (Finset.mem_inter.mp hx).1
  | Query.qor a b => fun _ hx =>
      (Finset.mem_union.mp hx).elim
        (fun h => search_items_subset idx a h)
        (fun h => search_items_subset idx b h)
  | Query.qnot _ => Finset.Subset.refl _
  | Query.noop => Finset.Subset.refl _

/-- A database whose valid index mirrors storage: the entry list is exactly
the enumeration of the deserialized records (this is the state the spec's
invariant `valid implies len(index) == len(storage)` describes, established
by `build`). -/
def IndexSynced (db : DB) : Prop :=
  db.index.valid = true → db.index.entries = (db.storage.items.map deserItem).enum

/-- If every record matches the query and no measurement filter is given,
the linear remove scan marks every position for removal and keeps nothing. -/
theorem removeGoLin_all_match (q : Query) (autoIdx : Bool) :
    ∀ (its : List Item) (i : Nat) (acc : RemoveAcc),
      (∀ it ∈ its, evalQ q (deserItem it) = true) →
      removeGoLin q none autoIdx its i acc =
        ⟨acc.filtered ∪ Finset.Ico i (i + its.length), acc.updated, acc.temp, acc.newIndex⟩
  | [], i, acc, _ => by
      obtain ⟨f, u, t, n⟩ := acc
      simp [removeGoLin]
  | it :: rest, i, acc, h => by
      unfold removeGoLin
      have h1 : skipByMeas none it = false := rfl
      rw [h1, if_neg (by simp), if_pos (h it (by simp))]
      rw [removeGoLin_all_match q autoIdx rest (i + 1)
        { acc with filtered := insert i acc.filtered }
        (fun x hx => h x (List.mem_cons_of_mem _ hx))]
      have hset : insert i acc.filtered ∪ Finset.Ico (i + 1) (i + 1 + rest.length) =
          acc.filtered ∪ Finset.Ico i (i + (it :: rest).length) := by
        ext x
        simp only [Finset.mem_union, Finset.mem_insert, Finset.mem_Ico, List.length_cons]
        constructor
        · rintro ((rfl | hf) | hi)
          · exact Or.inr ⟨Nat.le_refl _, by omega⟩
          · exact Or.inl hf
          · exact Or.inr ⟨by omega, by omega⟩
        · rintro (hf | hi)
          · exact Or.inl (Or.inr hf)
          · rcases Nat.eq_or_lt_of_le hi.1 with heq | hlt
            · exact Or.inl (Or.inl heq.symm)
            · exact Or.inr ⟨hlt, by omega⟩
      rw [RemoveAcc.mk.injEq]
      exact ⟨hset, rfl, rfl, rfl⟩

/-- C5 (amended): if storage is non-empty and `remove` matches every stored
point (no measurement filter), then afterwards storage is empty, the cached
measurement handles are cleared, and `remove` returns the count of removed
points; in auto-index mode the index is left valid and empty, while with
auto-indexing disabled `_reset_database` invalidates it instead. -/
theorem remove_all_matching (q : Query) (db : DB)
    (hw : db.storage.canWrite = true)
    (hne : db.storage.items ≠ [])
    (hsync : IndexSynced db)
    (hall : ∀ it ∈ db.storage.items, evalQ q (deserItem it) = true) :
    ∃ db', DB.remove q none db = Except.ok (db.storage.items.length, db') ∧
      db'.storage.items = [] ∧
      db'.measurements = [] ∧
      (db.autoIndex = true → db'.index.valid = true ∧ db'.index.entries = []) ∧
      (db.autoIndex = false → db'.index.valid = false) := by
  have hn : 0 < db.storage.items.length := List.length_pos.mpr hne
  have hloop : removeGoLin q none db.autoIndex db.storage.items 0 ⟨∅, [], [], 0⟩ =
      ⟨Finset.Ico 0 db.storage.items.length, [], [], 0⟩ := by
    rw [removeGoLin_all_match q db.autoIndex db.storage.items 0 ⟨∅, [], [], 0⟩ hall]
    simp
  have hico : (Finset.Ico 0 db.storage.items.length : Finset Nat) ≠ ∅ :=
    Finset.nonempty_iff_ne_empty.mp ⟨0, Finset.mem_Ico.mpr ⟨Nat.le_refl 0, hn⟩⟩
  have hfin : removeFinish ⟨Finset.Ico 0 db.storage.items.length, [], [], 0⟩ db =
      Except.ok (db.storage.items.length, resetDatabase db) := by
    unfold removeFinish
    rw [if_neg hico, if_pos rfl]
    simp [Nat.card_Ico]
  refine ⟨resetDatabase db, ?_, rfl, rfl, ?_, ?_⟩
  · unfold DB.remove
    rw [hw, Bool.not_true, if_neg Bool.false_ne_true]
    cases hv : db.index.valid with
    | false =>
        rw [if_neg Bool.false_ne_true, hloop, hfin]
    | true =>
        rw [if_pos rfl]
        dsimp only [searchWithMeas]
        have hpos : db.index.positions = Finset.range db.storage.items.length := by
          unfold Index.positions
          rw [hsync hv, List.enum_map_fst, List.length_map]
          ext x
          simp
        have hitems : (db.index.search q).items
            = Finset.range db.storage.items.length := by
          apply Finset.Subset.antisymm
          · rw [← hpos]
            exact search_items_subset db.index q
          · intro x hx
            have hx2 : x ∈ db.index.positions := by
              rw [hpos]
              exact hx
            unfold Index.positions at hx2
            rw [List.mem_toFinset, List.mem_map] at hx2
            obtain ⟨e, he, hfst⟩ := hx2
            have hev : evalQ q e.2 = true := by
              have h3 : (e.1, e.2) ∈ (db.storage.items.map deserItem).enum := by
                rw [Prod.mk.eta, ← hsync hv]
                exact he
              have h4 : e.2 ∈ db.storage.items.map deserItem :=
                List.getElem?_mem (List.mk_mem_enum_iff_getElem?.mp h3)
              rw [List.mem_map] at h4
              obtain ⟨it, hit, hdeser⟩ := h4
              rw [← hdeser]
              exact hall it hit
            have h6 := search_mem_of_eval db.index q e.1 e.2
              (by rw [Prod.mk.eta]; exact he) hev
            rw [hfst] at h6
            exact h6
        have hlen : db.index.len = db.storage.items.length := by
          unfold Index.len
          rw [hsync hv, List.enum_length, List.length_map]
        rw [hitems]
        rw [if_neg (by
          intro hcontra
          rw [Finset.range_eq_Ico] at hcontra
          exact hico hcontra)]
        rw [if_pos (by rw [Finset.card_range, hlen])]
        rw [hloop, hfin]
  · intro hauto
    unfold resetDatabase
    rw [hauto]
    exact ⟨rfl, rfl⟩
  · intro hauto
    unfold resetDatabase
    rw [hauto]
    rfl

/-- The post-state dichotomy of the auto-index invariant: either the index is
valid and its length equals the number of records in storage, or the index is
invalid. -/
def IndexLenOk (db : DB) : Prop :=
  (db.index.valid = true ∧ db.index.len = db.storage.items.length) ∨
    db.index.valid = false

/-- A synced state satisfies the length dichotomy. -/
theorem indexLenOk_of_synced {db : DB} (hsync : IndexSynced db) : IndexLenOk db := by
  cases hv : db.index.valid
  · exact Or.inr hv
  · refine Or.inl ⟨hv, ?_⟩
    unfold Index.len
    rw [hsync hv, List.enum_length, List.length_map]

theorem insertSorted_length (x : Item) : ∀ l, (insertSorted x l).length = l.length + 1
  | [] => rfl
  | y :: ys => by
      unfold insertSorted
      split
      · rfl
      · simp [insertSorted_length x ys]

theorem sortByTime_length : ∀ l : List Item, (sortByTime l).length = l.length
  | [] => rfl
  | x :: xs => by
      show (insertSorted x (sortByTime xs)).length = xs.length + 1
      rw [insertSorted_length, sortByTime_length xs]

/-- Position bookkeeping invariant of the remove scan, after the items before
position `i` have been processed: every record went either to the kept buffer
or to the removal set, and removal positions lie below `i`. -/
def RemAccInv (i : Nat) (acc : RemoveAcc) : Prop :=
  acc.temp.length + acc.filtered.card = i ∧ acc.filtered ⊆ Finset.range i

theorem keepItem_inv {i : Nat} {acc : RemoveAcc} (it : Item) (h : RemAccInv i acc) :
    RemAccInv (i + 1) (keepItem acc i it) := by
  obtain ⟨h1, h2⟩ := h
  refine ⟨?_, ?_⟩
  · show (acc.temp ++ [it]).length + acc.filtered.card = i + 1
    simp only [List.length_append, List.length_singleton]
    omega
  · exact h2.trans (Finset.range_subset.mpr (Nat.le_succ i))

theorem tempAppend_inv {i : Nat} {acc : RemoveAcc} (it : Item) (h : RemAccInv i acc) :
    RemAccInv (i + 1) { acc with temp := acc.temp ++ [it] } := by
  obtain ⟨h1, h2⟩ := h
  refine ⟨?_, ?_⟩
  · show (acc.temp ++ [it]).length + acc.filtered.card = i + 1
    simp only [List.length_append, List.length_singleton]
    omega
  · exact h2.trans (Finset.range_subset.mpr (Nat.le_succ i))

theorem filterAdd_inv {i : Nat} {acc : RemoveAcc} (h : RemAccInv i acc) :
    RemAccInv (i + 1) { acc with filtered := insert i acc.filtered } := by
  obtain ⟨h1, h2⟩ := h
  have hni : i ∉ acc.filtered := by
    intro hc
    have := h2 hc
    rw [Finset.mem_range] at this
    omega
  refine ⟨?_, ?_⟩
  · show acc.temp.length + (insert i acc.filtered).card = i + 1
    rw [Finset.card_insert_of_not_mem hni]
    omega
  · intro x hx
    rw [Finset.mem_insert] at hx
    rw [Finset.mem_range]
    rcases hx with rfl | hx
    · omega
    · have := h2 hx
      rw [Finset.mem_range] at this
      omega

theorem removeGoIdx_inv (q : Query) (rst : IndexResult) :
    ∀ (its : List Item) (i j : Nat) (acc : RemoveAcc), RemAccInv i acc →
      RemAccInv (i + its.length) (removeGoIdx q rst its i j acc)
  | [], i, _, acc, h => by simpa using h
  | it :: rest, i, j, acc, h => by
      unfold removeGoIdx
      have harith : i + (it :: rest).length = (i + 1) + rest.length := by
        simp only [List.length_cons]
        omega
      rw [harith]
      split
      · exact removeGoIdx_inv q rst rest (i + 1) j _ (keepItem_inv it h)
      · split
        · exact removeGoIdx_inv q rst rest (i + 1) (j + 1) _ (filterAdd_inv h)
        · split
          · exact removeGoIdx_inv q rst rest (i + 1) (j + 1) _ (filterAdd_inv h)
          · exact removeGoIdx_inv q rst rest (i + 1) (j + 1) _ (keepItem_inv it h)

theorem removeGoLin_inv (q : Query) (m : Option String) (a : Bool) :
    ∀ (its : List Item) (i : Nat) (acc : RemoveAcc), RemAccInv i acc →
      RemAccInv (i + its.length) (removeGoLin q m a its i acc)
  | [], i, acc, h => by simpa using h
  | it :: rest, i, acc, h => by
      unfold removeGoLin
      have harith : i + (it :: rest).length = (i + 1) + rest.length := by
        simp only [List.length_cons]
        omega
      rw [harith]
      split
      · exact removeGoLin_inv q m a rest (i + 1) _ (tempAppend_inv it h)
      · split
        · exact removeGoLin_inv q m a rest (i + 1) _ (filterAdd_inv h)
        · split
          · exact removeGoLin_inv q m a rest (i + 1) _ (keepItem_inv it h)
          · exact removeGoLin_inv q m a rest (i + 1) _ (tempAppend_inv it h)

/-- Dropping the entries at a position set from an enumerated list: the
remaining length is the original length minus the dropped positions that
actually occur in the enumerated range. -/
theorem filter_enumFrom_length {α : Type} (s : Finset Nat) :
    ∀ (l : List α) (k : Nat),
      ((List.enumFrom k l).filter (fun e => decide (e.1 ∉ s))).length
        = l.length - (s ∩ Finset.Ico k (k + l.length)).card
  | [], k => by simp
  | a :: l, k => by
      have ih := filter_enumFrom_length s l (k + 1)
      have hle : (s ∩ Finset.Ico (k + 1) (k + 1 + l.length)).card ≤ l.length := by
        calc (s ∩ Finset.Ico (k + 1) (k + 1 + l.length)).card
            ≤ (Finset.Ico (k + 1) (k + 1 + l.length)).card :=
              Finset.card_le_card Finset.inter_subset_right
          _ = l.length := by rw [Nat.card_Ico]; omega
      simp only [List.enumFrom, List.filter_cons, List.length_cons]
      cases hk : decide (k ∉ s) with
      | true =>
          have hks : k ∉ s := of_decide_eq_true hk
          have hset : s ∩ Finset.Ico k (k + (l.length + 1))
              = s ∩ Finset.Ico (k + 1) (k + 1 + l.length) := by
            ext x
            simp only [Finset.mem_inter, Finset.mem_Ico]
            constructor
            · rintro ⟨hxs, hx1, hx2⟩
              rcases Nat.eq_or_lt_of_le hx1 with rfl | hlt
              · exact absurd hxs hks
              · exact ⟨hxs, hlt, by omega⟩
            · rintro ⟨hxs, hx1, hx2⟩
              exact ⟨hxs, by omega, by omega⟩
          rw [if_pos rfl]
          simp only [List.length_cons, ih, hset]
          omega
      | false =>
          have hks : k ∈ s := by
            have := of_decide_eq_false hk
            exact Decidable.not_not.mp this
          have hset : s ∩ Finset.Ico k (k + (l.length + 1))
              = insert k (s ∩ Finset.Ico (k + 1) (k + 1 + l.length)) := by
            ext x
            simp only [Finset.mem_inter, Finset.mem_Ico, Finset.mem_insert]
            constructor
            · rintro ⟨hxs, hx1, hx2⟩
              rcases Nat.eq_or_lt_of_le hx1 with rfl | hlt
              · exact Or.inl rfl
              · exact Or.inr ⟨hxs, hlt, by omega⟩
            · rintro (rfl | ⟨hxs, hx1, hx2⟩)
              · exact ⟨hks, Nat.le_refl _, by omega⟩
              · exact ⟨hxs, by omega, by omega⟩
          have hnm : k ∉ s ∩ Finset.Ico (k + 1) (k + 1 + l.length) := by
            simp [Finset.mem_inter, Finset.mem_Ico]
          simp only [Bool.false_eq_true, if_false, ih, hset]
          rw [Finset.card_insert_of_not_mem hnm]
          omega

theorem enum_eq_enumFrom {α : Type} (l : List α) : l.enum = List.enumFrom 0 l := rfl

/-- In auto-index mode, `_insert_point` preserves the length dichotomy: the
cheap path extends index and storage by the same count, the other paths
invalidate or leave an invalid index invalid. -/
theorem insertPointHelper_auto_inv {pts : List Point} {db db' : DB}
    (hauto : db.autoIndex = true) (hsync : IndexSynced db)
    (h : insertPointHelper (Except.ok pts) db = Except.ok db') :
    IndexLenOk db' := by
  unfold insertPointHelper at h
  simp only [hauto, Bool.true_and, Bool.not_true, Bool.false_and, Bool.false_eq_true,
    if_false, Except.ok.injEq] at h
  cases hv : db.index.valid with
  | false =>
      rw [hv] at h
      simp only [Bool.false_eq_true, if_false] at h
      rw [← h]
      exact Or.inr hv
  | true =>
      rw [hv, if_pos rfl] at h
      cases hi : (db.storage.append pts).indexIntact with
      | false =>
          rw [hi] at h
          simp only [Bool.false_eq_true, if_false] at h
          rw [← h]
          exact Or.inr rfl
      | true =>
          rw [hi, if_pos rfl] at h
          rw [← h]
          refine Or.inl ⟨hv, ?_⟩
          show (db.index.insertPts pts).len = (db.storage.append pts).items.length
          unfold Index.insertPts Index.len Storage.append
          simp only [List.length_append, List.enumFrom_length, List.length_map]
          rw [hsync hv]
          simp [List.enum_length]

/-- In auto-index mode a successful `insert` preserves the length dichotomy. -/
theorem insert_ok_auto_inv {v : PVal} {m : Option String} {now : Time} {db : DB}
    {c : Nat} {p' : Point} {dbN : DB} (hauto : db.autoIndex = true)
    (hsync : IndexSynced db)
    (h : DB.insert v m now db = Except.ok (c, p', dbN)) : IndexLenOk dbN := by
  unfold DB.insert at h
  split at h
  · exact Except.noConfusion h
  · split at h
    · exact Except.noConfusion h
    · rename_i p
      dsimp only at h
      cases hh : insertPointHelper (Except.ok [insMeasFix (insTimeFix p now) m]) db with
      | error e =>
          rw [hh] at h
          exact Except.noConfusion h
      | ok dbM =>
          rw [hh] at h
          simp only [Except.ok.injEq, Prod.mk.injEq] at h
          rw [← h.2.2]
          exact insertPointHelper_auto_inv hauto hsync hh

/-- In auto-index mode a successful `insert_multiple` preserves the length
dichotomy. -/
theorem insertMultiple_ok_auto_inv {vs : List PVal} {m : Option String} {now : Time}
    {db : DB} {c : Nat} {dbN : DB} (hauto : db.autoIndex = true)
    (hsync : IndexSynced db)
    (h : DB.insertMultiple vs m now db = Except.ok (c, dbN)) : IndexLenOk dbN := by
  unfold DB.insertMultiple at h
  split at h
  · exact Except.noConfusion h
  · dsimp only at h
    cases hb : buildInsertList m now vs with
    | error e =>
        rw [hb] at h
        unfold insertPointHelper at h
        simp only [Except.map] at h
        exact Except.noConfusion h
    | ok pc =>
        rw [hb] at h
        simp only [Except.map] at h
        cases hh : insertPointHelper (Except.ok pc.1) db with
        | error e =>
            rw [hh] at h
            exact Except.noConfusion h
        | ok dbM =>
            rw [hh] at h
            simp only [Except.ok.injEq, Prod.mk.injEq] at h
            rw [← h.2]
            exact insertPointHelper_auto_inv hauto hsync hh

/-- In auto-index mode the tail of `_update_helper` rebuilds the index from
the persisted buffer, so the rebuilt index length equals the stored record
count. -/
theorem updateFinish_auto_inv {acc : UpdateAcc} {db : DB} {r : Nat} {db' : DB}
    (hauto : db.autoIndex = true) (hsync : IndexSynced db)
    (h : updateFinish acc db = Except.ok (r, db')) : IndexLenOk db' := by
  unfold updateFinish at h
  split at h
  · simp only [Except.ok.injEq, Prod.mk.injEq] at h
    rw [← h.2]
    exact indexLenOk_of_synced hsync
  · dsimp only at h
    simp only [hauto, eq_self_iff_true, if_true] at h
    split at h
    · simp only [Except.ok.injEq, Prod.mk.injEq] at h
      rw [← h.2]
      refine Or.inl ⟨rfl, ?_⟩
      show (Index.build
        ((db.storage.write (sortByTime acc.temp) true).items.map deserItem)).len
        = (db.storage.write (sortByTime acc.temp) true).items.length
      unfold Index.build Index.len
      rw [List.enum_length, List.length_map]
    · simp only [Except.ok.injEq, Prod.mk.injEq] at h
      rw [← h.2]
      refine Or.inl ⟨rfl, ?_⟩
      show (Index.build
        ((db.storage.write acc.temp db.index.valid).items.map deserItem)).len
        = (db.storage.write acc.temp db.index.valid).items.length
      unfold Index.build Index.len
      rw [List.enum_length, List.length_map]

/-- In auto-index mode a successful `_update_helper` run preserves the length
dichotomy. -/
theorem updateHelper_ok_auto_inv {ua : Bool} {q : Query} {t : Option TimeArg}
    {me : Option MeasArg} {ta : Option TagsArg} {f : Option FieldsArg}
    {m : Option String} {db : DB} {r : Nat} {db' : DB}
    (hauto : db.autoIndex = true) (hsync : IndexSynced db)
    (h : updateHelper ua q t me ta f m db = Except.ok (r, db')) :
    IndexLenOk db' := by
  unfold updateHelper at h
  split at h
  · exact Except.noConfusion h
  · dsimp only at h
    split at h
    · split at h
      · simp only [Except.ok.injEq, Prod.mk.injEq] at h
        rw [← h.2]
        exact indexLenOk_of_synced hsync
      · split at h
        · exact updateFinish_auto_inv hauto hsync h
        · exact updateFinish_auto_inv hauto hsync h
    · exact updateFinish_auto_inv hauto hsync h

/-- In auto-index mode the tail of `remove` preserves the length dichotomy:
nothing removed is a no-op; nothing kept resets to valid-and-empty; a rebuild
synchronizes by construction; the incremental prune-and-remap drops exactly
the removed positions from an index that mirrored storage. -/
theorem removeFinish_auto_inv {acc : RemoveAcc} {db : DB} {r : Nat} {db' : DB}
    (hauto : db.autoIndex = true) (hsync : IndexSynced db)
    (hinv : RemAccInv db.storage.items.length acc)
    (h : removeFinish acc db = Except.ok (r, db')) : IndexLenOk db' := by
  obtain ⟨hlen, hsub⟩ := hinv
  have hcard : acc.filtered.card ≤ db.storage.items.length := by
    calc acc.filtered.card ≤ (Finset.range db.storage.items.length).card :=
          Finset.card_le_card hsub
      _ = db.storage.items.length := Finset.card_range _
  unfold removeFinish at h
  split at h
  · simp only [Except.ok.injEq, Prod.mk.injEq] at h
    rw [← h.2]
    exact indexLenOk_of_synced hsync
  · split at h
    · simp only [Except.ok.injEq, Prod.mk.injEq] at h
      rw [← h.2]
      unfold resetDatabase
      rw [hauto]
      exact Or.inl ⟨rfl, rfl⟩
    · split at h
      · simp only [Except.ok.injEq, Prod.mk.injEq] at h
        rw [← h.2]
        refine Or.inl ⟨rfl, ?_⟩
        show (Index.build ((sortByTime acc.temp).map deserItem)).len
            = (db.storage.write (sortByTime acc.temp) true).items.length
        unfold Index.build Index.len Storage.write
        rw [List.enum_length, List.length_map]
      · split at h
        · rename_i hcond
          have hv : db.index.valid = true := (Bool.and_eq_true_iff.mp hcond).2
          simp only [Except.ok.injEq, Prod.mk.injEq] at h
          rw [← h.2]
          refine Or.inl ⟨hv, ?_⟩
          show ((db.index.removePos acc.filtered).remapPos acc.updated).len
              = (db.storage.write acc.temp true).items.length
          unfold Index.remapPos Index.removePos Index.len Storage.write
          rw [List.length_map, hsync hv, enum_eq_enumFrom,
            filter_enumFrom_length acc.filtered]
          have hinter : acc.filtered ∩
              Finset.Ico 0 (0 + (db.storage.items.map deserItem).length)
              = acc.filtered := by
            apply Finset.inter_eq_left.mpr
            intro x hx
            have := hsub hx
            rw [Finset.mem_range] at this
            rw [Finset.mem_Ico, List.length_map]
            omega
          rw [hinter, List.length_map]
          dsimp only
          omega
        · rename_i h1 h2
          rw [hauto] at h1 h2
          simp only [Bool.true_and] at h1 h2
          cases hv : db.index.valid
          · exact absurd (show (!db.index.valid) = true by rw [hv]; rfl) h1
          · exact absurd (show db.index.valid = true by rw [hv]) h2

/-- In auto-index mode a successful `remove` preserves the length dichotomy. -/
theorem remove_ok_auto_inv {q : Query} {m : Option String} {db : DB} {r : Nat}
    {db' : DB} (hauto : db.autoIndex = true) (hsync : IndexSynced db)
    (h : DB.remove q m db = Except.ok (r, db')) : IndexLenOk db' := by
  have hacc0 : RemAccInv 0 ⟨∅, [], [], 0⟩ := by
    constructor
    · simp
    · simp
  have hlin : RemAccInv db.storage.items.length
      (removeGoLin q m db.autoIndex db.storage.items 0 ⟨∅, [], [], 0⟩) := by
    have := removeGoLin_inv q m db.autoIndex db.storage.items 0 ⟨∅, [], [], 0⟩ hacc0
    simpa using this
  unfold DB.remove at h
  split at h
  · exact Except.noConfusion h
  · split at h
    · dsimp only at h
      split at h
      · simp only [Except.ok.injEq, Prod.mk.injEq] at h
        rw [← h.2]
        exact indexLenOk_of_synced hsync
      · split at h
        · exact removeFinish_auto_inv hauto hsync hlin h
        · refine removeFinish_auto_inv hauto hsync ?_ h
          have := removeGoIdx_inv q (searchWithMeas db.index q m)
            db.storage.items 0 0 ⟨∅, [], [], 0⟩ hacc0
          simpa using this
    · exact removeFinish_auto_inv hauto hsync hlin h

/-- `reindex` preserves the length dichotomy: a valid index is untouched, an
invalid one is rebuilt from (possibly re-sorted) storage. -/
theorem reindex_ok_auto_inv {db db' : DB} (hsync : IndexSynced db)
    (h : DB.reindex db = Except.ok db') : IndexLenOk db' := by
  unfold DB.reindex at h
  split at h
  · exact Except.noConfusion h
  · split at h
    · simp only [Except.ok.injEq] at h
      rw [← h]
      exact indexLenOk_of_synced hsync
    · dsimp only at h
      split at h
      · simp only [Except.ok.injEq] at h
        rw [← h]
        refine Or.inl ⟨rfl, ?_⟩
        show (Index.build (db.storage.items.map deserItem)).len
            = db.storage.items.length
        unfold Index.build Index.len
        rw [List.enum_length, List.length_map]
      · simp only [Except.ok.injEq] at h
        rw [← h]
        refine Or.inl ⟨rfl, ?_⟩
        show (Index.build ((sortByTime db.storage.items).map deserItem)).len
            = (db.storage.write (sortByTime db.storage.items) true).items.length
        unfold Index.build Index.len Storage.write
        rw [List.enum_length, List.length_map]

/-- C1: in auto-index mode, from a state whose valid index mirrors storage,
after every successful mutating call (insert, insert_multiple, remove,
update, update_all, reindex) either the index is valid and its length equals
the number of records in storage, or the index is invalid. -/
theorem auto_index_mutation_invariant (op : MutOp) (db : DB) (r : Nat) (db' : DB)
    (hauto : db.autoIndex = true) (hsync : IndexSynced db)
    (hrun : runMut op db = Except.ok (r, db')) : IndexLenOk db' := by
  cases op with
  | ins v m now =>
      dsimp only [runMut] at hrun
      cases hins : DB.insert v m now db with
      | error e =>
          rw [hins] at hrun
          exact Except.noConfusion hrun
      | ok t =>
          rw [hins] at hrun
          simp only [Except.map, Except.ok.injEq, Prod.mk.injEq] at hrun
          obtain ⟨c, p', dbN⟩ := t
          rw [← hrun.2]
          exact insert_ok_auto_inv hauto hsync hins
  | insMany vs m now =>
      dsimp only [runMut] at hrun
      exact insertMultiple_ok_auto_inv hauto hsync hrun
  | rem q m =>
      dsimp only [runMut] at hrun
      exact remove_ok_auto_inv hauto hsync hrun
  | upd q t me ta f m =>
      dsimp only [runMut] at hrun
      unfold DB.update at hrun
      split at hrun
      · exact Except.noConfusion hrun
      · exact updateHelper_ok_auto_inv hauto hsync hrun
  | updAll t me ta f =>
      dsimp only [runMut] at hrun
      unfold DB.updateAll at hrun
      split at hrun
      · exact Except.noConfusion hrun
      · exact updateHelper_ok_auto_inv hauto hsync hrun
  | reidx =>
      dsimp only [runMut] at hrun
      cases hre : DB.reindex db with
      | error e =>
          rw [hre] at hrun
          exact Except.noConfusion hrun
      | ok dbN =>
          rw [hre] at hrun
          simp only [Except.map, Except.ok.injEq, Prod.mk.injEq] at hrun
          rw [← hrun.2]
          exact reindex_ok_auto_inv hsync hre

/-- C1 witness: inserting a point into an empty auto-index database; the
resulting index is valid with one entry over one stored record. -/
theorem auto_index_mutation_invariant_witness :
    IndexLenOk ⟨true, ⟨[Item.record updP], true, true, true⟩, ⟨true, [(0, updP)]⟩, []⟩ :=
  auto_index_mutation_invariant (MutOp.ins (PVal.pt updP) none 9)
    ⟨true, ⟨[], true, true, true⟩, ⟨true, []⟩, []⟩ 1
    ⟨true, ⟨[Item.record updP], true, true, true⟩, ⟨true, [(0, updP)]⟩, []⟩
    rfl (fun _ => rfl) (by decide)

/-- C5 (counterexample to the claim as stated): with auto-indexing disabled,
`remove` that matches every stored point resets the database but
`_reset_database` *invalidates* the index instead of leaving it valid and
empty. -/
theorem remove_all_no_auto_index_invalid_cex :
    DB.remove (Query.fieldExists "k") none
        ⟨false, ⟨[Item.record updP], true, true, true⟩, ⟨false, []⟩, []⟩
      = Except.ok (1, ⟨false, ⟨[], true, true, true⟩, ⟨false, []⟩, []⟩) ∧
    (⟨false, ⟨[], true, true, true⟩, ⟨false, []⟩, []⟩ : DB).index.valid = false := by
  decide

/-- C5 witness: the amended theorem applied to a concrete auto-index database
with one stored matching point. -/
theorem remove_all_matching_witness :
    ∃ db', DB.remove (Query.fieldExists "k") none
        ⟨true, ⟨[Item.record updP], true, true, true⟩, ⟨true, [(0, updP)]⟩, ["m"]⟩
      = Except.ok (1, db') ∧ db'.storage.items = [] ∧ db'.measurements = [] := by
  obtain ⟨db', h1, h2, h3, -, -⟩ :=
    remove_all_matching (Query.fieldExists "k")
      ⟨true, ⟨[Item.record updP], true, true, true⟩, ⟨true, [(0, updP)]⟩, ["m"]⟩
      (by decide) (by decide) (fun _ => by decide) (by decide)
  exact ⟨db', h1, h2, h3⟩

/-- The updater of `insert_multiple` raises `TypeError` as soon as it reaches
a non-point value, whatever comes before or after it. -/
theorem buildInsertList_bad (m : Option String) (t : Time) :
    ∀ vs1 vs2, buildInsertList m t (vs1 ++ PVal.bad :: vs2) = Except.error Err.typeError
  | [], _ => rfl
  | PVal.bad :: _, _ => rfl
  | PVal.pt p :: vs1, vs2 => by
      have ih := buildInsertList_bad m t vs1 vs2
      simp only [List.cons_append, buildInsertList, List.append_eq, ih]

/-- C8: `insert` on a non-point value, and `insert_multiple` on an iterable
holding a non-point value at any position, raise `TypeError`; the error is
raised while building the point list, before `storage.append` runs, so the
operation produces no successor state: storage contents and index state are
exactly as before the call. -/
theorem insert_type_error_no_write (db : DB) (m : Option String) (now : Time)
    (vs1 vs2 : List PVal) (ha : db.storage.canAppend = true) :
    DB.insert PVal.bad m now db = Except.error Err.typeError ∧
    DB.insertMultiple (vs1 ++ PVal.bad :: vs2) m now db = Except.error Err.typeError := by
  constructor
  · unfold DB.insert
    rw [ha]
    rfl
  · unfold DB.insertMultiple
    rw [ha]
    dsimp only
    rw [buildInsertList_bad]
    rfl

/-- C8 witness: the type errors on a concrete database. -/
theorem insert_type_error_no_write_witness :
    DB.insert PVal.bad none 0 updDB = Except.error Err.typeError ∧
    DB.insertMultiple ([PVal.pt updP] ++ PVal.bad :: []) none 0 updDB
      = Except.error Err.typeError :=
  insert_type_error_no_write updDB none 0 [PVal.pt updP] [] (by decide)

/-- C2 (bug evidence): on the full-linear-scan path (invalid index), `get`
does not stop at the first match: with two stored points both satisfying the
query, it returns the second (last) one, although the first point satisfies
the query and precedes it in storage iteration order. -/
theorem get_fullscan_returns_last_match :
    (DB.get (Query.fieldEq "a" 1) none cexGetDB).1 = some cexP2 ∧
    evalQ (Query.fieldEq "a" 1) cexP1 = true ∧
    cexGetDB.storage.items.head? = some (Item.record cexP1) ∧
    cexP2 ≠ cexP1 := by decide

/-- C9 (amended): `insert` mutates the caller's point before persisting it —
a missing time is filled with the current UTC time, and a *truthy* (non-empty)
measurement argument that differs from the point's measurement overwrites it;
an absent, empty, or already-equal measurement argument leaves the
measurement alone; tags and fields are untouched; and the record appended to
storage is the serialization of the mutated point.  (The mutated point is
returned as the middle component, modelling the in-place mutation of the
caller's object.) -/
theorem insTimeFix_time_none {p : Point} (now : Time) (h : p.time = none) :
    (insTimeFix p now).time = some now := by
  simp [insTimeFix, h]

theorem insTimeFix_time_some {p : Point} (now : Time) {t : Time} (h : p.time = some t) :
    (insTimeFix p now).time = some t := by
  simp [insTimeFix, h]

theorem insTimeFix_measurement (p : Point) (now : Time) :
    (insTimeFix p now).measurement = p.measurement := by
  unfold insTimeFix
  split <;> rfl

theorem insTimeFix_tags (p : Point) (now : Time) :
    (insTimeFix p now).tags = p.tags := by
  unfold insTimeFix
  split <;> rfl

theorem insTimeFix_fields (p : Point) (now : Time) :
    (insTimeFix p now).fields = p.fields := by
  unfold insTimeFix
  split <;> rfl

theorem insMeasFix_time (p : Point) (m : Option String) :
    (insMeasFix p m).time = p.time := by
  unfold insMeasFix
  repeat' split
  all_goals rfl

theorem insMeasFix_tags (p : Point) (m : Option String) :
    (insMeasFix p m).tags = p.tags := by
  unfold insMeasFix
  repeat' split
  all_goals rfl

theorem insMeasFix_fields (p : Point) (m : Option String) :
    (insMeasFix p m).fields = p.fields := by
  unfold insMeasFix
  repeat' split
  all_goals rfl

theorem insMeasFix_measurement_overwrite {p : Point} {s : String}
    (hs : s ≠ "") (hne : p.measurement ≠ s) :
    (insMeasFix p (some s)).measurement = s := by
  have h1 : s.isEmpty = false := by
    cases he : s.isEmpty
    · rfl
    · exact absurd ((String.isEmpty_iff s).mp he) hs
  have h2 : (p.measurement == s) = false := by
    simp [hne]
  simp [insMeasFix, h1, h2]

theorem insMeasFix_measurement_keep {p : Point} {m : Option String}
    (h : m = none ∨ ∃ s, m = some s ∧ (s = "" ∨ p.measurement = s)) :
    (insMeasFix p m).measurement = p.measurement := by
  rcases h with h | ⟨s, hm, hd⟩
  · subst h
    rfl
  · subst hm
    rcases hd with hd | hd
    · subst hd
      have he : ("" : String).isEmpty = true := rfl
      simp [insMeasFix, he]
    · have h2 : (p.measurement == s) = true := by simp [hd]
      simp [insMeasFix, h2]

theorem insert_mutates_caller_point (p : Point) (m : Option String) (now : Time) (db : DB)
    (ha : db.storage.canAppend = true) :
    ∃ p' db', DB.insert (PVal.pt p) m now db = Except.ok (1, p', db') ∧
      (p.time = none → p'.time = some now) ∧
      (∀ t, p.time = some t → p'.time = some t) ∧
      (∀ s, m = some s → s ≠ "" → p.measurement ≠ s → p'.measurement = s) ∧
      (m = none → p'.measurement = p.measurement) ∧
      (∀ s, m = some s → (s = "" ∨ p.measurement = s) → p'.measurement = p.measurement) ∧
      p'.tags = p.tags ∧ p'.fields = p.fields ∧
      db'.storage.items = db.storage.items ++ [serPoint p'] := by
  unfold DB.insert
  rw [ha]
  refine ⟨_, _, rfl, ?_, ?_, ?_, ?_, ?_, ?_, ?_, ?_⟩
  · intro h
    rw [insMeasFix_time, insTimeFix_time_none now h]
  · intro t h
    rw [insMeasFix_time, insTimeFix_time_some now h]
  · intro s hm hs hne
    subst hm
    rw [insMeasFix_measurement_overwrite hs]
    rw [insTimeFix_measurement]
    exact hne
  · intro hm
    subst hm
    rw [insMeasFix_measurement_keep (Or.inl rfl), insTimeFix_measurement]
  · intro s hm hd
    subst hm
    rw [insMeasFix_measurement_keep
        (Or.inr ⟨s, rfl, by rw [insTimeFix_measurement]; exact hd⟩),
      insTimeFix_measurement]
  · rw [insMeasFix_tags, insTimeFix_tags]
  · rw [insMeasFix_fields, insTimeFix_fields]
  · rfl

/-- C9 witness: the amended theorem applied to a concrete point with no
timestamp and a differing measurement argument. -/
theorem insert_mutates_caller_point_witness :
    ∃ p' db', DB.insert (PVal.pt ⟨none, "_default", [], []⟩) (some "x") 7
        ⟨false, ⟨[], true, true, true⟩, ⟨false, []⟩, []⟩ = Except.ok (1, p', db') ∧
      p'.time = some 7 ∧ p'.measurement = "x" := by
  obtain ⟨p', db', hrun, ht, _, hms, _, _, _, _, _⟩ :=
    insert_mutates_caller_point ⟨none, "_default", [], []⟩ (some "x") 7
      ⟨false, ⟨[], true, true, true⟩, ⟨false, []⟩, []⟩ (by decide)
  exact ⟨p', db', hrun, ht rfl, hms "x" rfl (by decide) (by decide)⟩

/-- C9 (counterexample to the claim as stated): insert with the
measurement argument given as the empty string, differing from the point's
measurement: Python's truthiness test skips the overwrite, so the point's
measurement is *not* replaced by the argument. -/
theorem insert_empty_measurement_not_overwritten :
    DB.insert (PVal.pt ⟨some 1, "_default", [], []⟩) (some "") 5
        ⟨false, ⟨[], true, true, true⟩, ⟨false, []⟩, []⟩
      = Except.ok (1, ⟨some 1, "_default", [], []⟩,
          ⟨false, ⟨[Item.record ⟨some 1, "_default", [], []⟩], true, true, true⟩, ⟨false, []⟩, []⟩) ∧
    ("_default" : String) ≠ "" := by decide

/-- With auto-indexing off, `_insert_point` always leaves the index invalid:
a valid index is invalidated, an invalid one stays invalid. -/
theorem insertPointHelper_no_auto {pts : List Point} {db db' : DB}
    (h : db.autoIndex = false)
    (hrun : insertPointHelper (Except.ok pts) db = Except.ok db') :
    db'.index.valid = false := by
  unfold insertPointHelper at hrun
  simp only [h, Bool.false_and, Bool.false_eq_true, if_false, Bool.not_false,
    Bool.true_and, Except.ok.injEq] at hrun
  cases hv : db.index.valid
  · rw [hv] at hrun
    simp only [Bool.false_eq_true, if_false] at hrun
    rw [← hrun]
    exact hv
  · rw [hv] at hrun
    simp only [if_true] at hrun
    rw [← hrun]
    rfl

/-- With auto-indexing off, the tail of `_update_helper` never touches the
index object. -/
theorem updateFinish_no_auto {acc : UpdateAcc} {db : DB} (h : db.autoIndex = false)
    {r : Nat} {db' : DB} (hrun : updateFinish acc db = Except.ok (r, db')) :
    db'.index = db.index := by
  unfold updateFinish at hrun
  split at hrun
  · simp only [Except.ok.injEq, Prod.mk.injEq] at hrun
    rw [← hrun.2]
  · simp only [h, Bool.false_and, Bool.false_eq_true, if_false,
      Except.ok.injEq, Prod.mk.injEq] at hrun
    rw [← hrun.2]

/-- With auto-indexing off, the tail of `remove` invalidates the index
whenever at least one point was removed. -/
theorem removeFinish_no_auto {acc : RemoveAcc} {db : DB} (h : db.autoIndex = false)
    {r : Nat} {db' : DB} (hrun : removeFinish acc db = Except.ok (r, db'))
    (hr : 1 ≤ r) : db'.index.valid = false := by
  unfold removeFinish at hrun
  split at hrun
  · simp only [Except.ok.injEq, Prod.mk.injEq] at hrun
    omega
  · split at hrun
    · simp only [Except.ok.injEq, Prod.mk.injEq] at hrun
      rw [← hrun.2]
      unfold resetDatabase
      rw [h]
      rfl
    · simp only [h, Bool.false_and, Bool.false_eq_true, if_false,
        Except.ok.injEq, Prod.mk.injEq] at hrun
      rw [← hrun.2]
      rfl

/-- What a mutating call guarantees about the index with auto-indexing off:
insertion paths invalidate; a removal that removed something invalidates; the
update paths leave the index untouched. -/
def noAutoIndexPost : MutOp → DB → Nat → DB → Prop
  | MutOp.ins _ _ _, _, _, db' => db'.index.valid = false
  | MutOp.insMany _ _ _, _, _, db' => db'.index.valid = false
  | MutOp.rem _ _, _, r, db' => 1 ≤ r → db'.index.valid = false
  | MutOp.upd _ _ _ _ _ _, db, _, db' => db'.index = db.index
  | MutOp.updAll _ _ _ _, db, _, db' => db'.index = db.index
  | MutOp.reidx, _, _, _ => True

/-- With auto-indexing off, a successful `insert` leaves the index invalid. -/
theorem insert_ok_no_auto {v : PVal} {m : Option String} {now : Time} {db : DB}
    {c : Nat} {p' : Point} {dbN : DB} (hauto : db.autoIndex = false)
    (h : DB.insert v m now db = Except.ok (c, p', dbN)) : dbN.index.valid = false := by
  unfold DB.insert at h
  split at h
  · exact Except.noConfusion h
  · split at h
    · exact Except.noConfusion h
    · rename_i p
      dsimp only at h
      cases hh : insertPointHelper (Except.ok [insMeasFix (insTimeFix p now) m]) db with
      | error e =>
          rw [hh] at h
          exact Except.noConfusion h
      | ok dbM =>
          rw [hh] at h
          simp only [Except.ok.injEq, Prod.mk.injEq] at h
          rw [← h.2.2]
          exact insertPointHelper_no_auto hauto hh

/-- With auto-indexing off, a successful `insert_multiple` leaves the index
invalid. -/
theorem insertMultiple_ok_no_auto {vs : List PVal} {m : Option String} {now : Time}
    {db : DB} {c : Nat} {dbN : DB} (hauto : db.autoIndex = false)
    (h : DB.insertMultiple vs m now db = Except.ok (c, dbN)) :
    dbN.index.valid = false := by
  unfold DB.insertMultiple at h
  split at h
  · exact Except.noConfusion h
  · dsimp only at h
    cases hb : buildInsertList m now vs with
    | error e =>
        rw [hb] at h
        unfold insertPointHelper at h
        simp only [Except.map] at h
        exact Except.noConfusion h
    | ok pc =>
        rw [hb] at h
        simp only [Except.map] at h
        cases hh : insertPointHelper (Except.ok pc.1) db with
        | error e =>
            rw [hh] at h
            exact Except.noConfusion h
        | ok dbM =>
            rw [hh] at h
            simp only [Except.ok.injEq, Prod.mk.injEq] at h
            rw [← h.2]
            exact insertPointHelper_no_auto hauto hh

/-- With auto-indexing off, a successful `remove` that removed at least one
point leaves the index invalid. -/
theorem remove_ok_no_auto {q : Query} {m : Option String} {db : DB} {r : Nat}
    {db' : DB} (hauto : db.autoIndex = false)
    (h : DB.remove q m db = Except.ok (r, db')) (hr : 1 ≤ r) :
    db'.index.valid = false := by
  unfold DB.remove at h
  split at h
  · exact Except.noConfusion h
  · split at h
    · dsimp only at h
      split at h
      · simp only [Except.ok.injEq, Prod.mk.injEq] at h
        omega
      · split at h
        · exact removeFinish_no_auto hauto h hr
        · exact removeFinish_no_auto hauto h hr
    · exact removeFinish_no_auto hauto h hr

/-- With auto-indexing off, a successful `_update_helper` run leaves the
index object unchanged. -/
theorem updateHelper_ok_no_auto {ua : Bool} {q : Query} {t : Option TimeArg}
    {me : Option MeasArg} {ta : Option TagsArg} {f : Option FieldsArg}
    {m : Option String} {db : DB} {r : Nat} {db' : DB}
    (hauto : db.autoIndex = false)
    (h : updateHelper ua q t me ta f m db = Except.ok (r, db')) :
    db'.index = db.index := by
  unfold updateHelper at h
  split at h
  · exact Except.noConfusion h
  · dsimp only at h
    split at h
    · split at h
      · simp only [Except.ok.injEq, Prod.mk.injEq] at h
        rw [← h.2]
      · split at h
        · exact updateFinish_no_auto hauto h
        · exact updateFinish_no_auto hauto h
    · exact updateFinish_no_auto hauto h

/-- C3 (amended): with auto-indexing disabled, a successful `insert` or
`insert_multiple` always leaves the index invalid, and a successful `remove`
that removed at least one point leaves it invalid; but a successful `update`
or `update_all` leaves the index object entirely unchanged — in particular a
previously valid index remains valid (the deviation from the claim as
stated).  A `remove` that removed nothing performs no write and also leaves
the index unchanged. -/
theorem no_auto_index_mutation_effects (op : MutOp) (db : DB) (r : Nat) (db' : DB)
    (hauto : db.autoIndex = false)
    (hrun : runMut op db = Except.ok (r, db')) :
    noAutoIndexPost op db r db' := by
  cases op with
  | ins v m now =>
      dsimp only [runMut] at hrun
      cases hins : DB.insert v m now db with
      | error e =>
          rw [hins] at hrun
          exact Except.noConfusion hrun
      | ok t =>
          rw [hins] at hrun
          simp only [Except.map, Except.ok.injEq, Prod.mk.injEq] at hrun
          obtain ⟨c, p', dbN⟩ := t
          show db'.index.valid = false
          rw [← hrun.2]
          exact insert_ok_no_auto hauto hins
  | insMany vs m now =>
      dsimp only [runMut] at hrun
      exact insertMultiple_ok_no_auto hauto hrun
  | rem q m =>
      dsimp only [runMut] at hrun
      intro hr
      exact remove_ok_no_auto hauto hrun hr
  | upd q t me ta f m =>
      dsimp only [runMut] at hrun
      unfold DB.update at hrun
      split at hrun
      · exact Except.noConfusion hrun
      · exact updateHelper_ok_no_auto hauto hrun
  | updAll t me ta f =>
      dsimp only [runMut] at hrun
      unfold DB.updateAll at hrun
      split at hrun
      · exact Except.noConfusion hrun
      · exact updateHelper_ok_no_auto hauto hrun
  | reidx => trivial

/-- C3 (counterexample to the claim as stated): a database with auto-indexing
disabled and a valid index; `update(noop, fields=dict(k=5))` succeeds,
rewrites storage (a successful mutating write — the stored items change),
yet the index remains valid afterwards. -/
theorem update_no_auto_index_keeps_valid_cex :
    DB.update Query.noop none none none (some (FieldsArg.lit [("k", 5)])) none
        ⟨false, ⟨[Item.record updP], true, true, true⟩, ⟨true, [(0, updP)]⟩, []⟩
      = Except.ok (1,
          ⟨false, ⟨[Item.obj updPNew], true, true, true⟩, ⟨true, [(0, updP)]⟩, []⟩) ∧
    (⟨false, ⟨[Item.obj updPNew], true, true, true⟩, ⟨true, [(0, updP)]⟩, []⟩ : DB).index.valid
      = true ∧
    [Item.obj updPNew] ≠ [Item.record updP] := by decide

/-- C3 witness: the amended theorem applied to a concrete insert with
auto-indexing disabled — afterwards the index is invalid. -/
theorem no_auto_index_mutation_effects_witness :
    (⟨false, ⟨[Item.record updP, Item.record updP], true, true, true⟩,
        ⟨false, [(0, updP)]⟩, []⟩ : DB).index.valid = false :=
  no_auto_index_mutation_effects (MutOp.ins (PVal.pt updP) none 9)
    ⟨false, ⟨[Item.record updP], true, true, true⟩, ⟨true, [(0, updP)]⟩, []⟩ 1
    ⟨false, ⟨[Item.record updP, Item.record updP], true, true, true⟩,
        ⟨false, [(0, updP)]⟩, []⟩
    (by decide) (by decide)

/-- C4 (bug evidence): in the full-scan branch of `_update_helper`, the item
placed in the rewrite buffer for a changed point is
`_deserialize_storage_item(_point)` — the deserializer applied to the raw
point object — and not `_serialize_point(_point)`: the persisted buffer
holds `Item.obj updPNew`, which differs from the serialized record
`serPoint updPNew`. -/
theorem update_fullscan_buffer_not_serialized :
    DB.update Query.noop none none none (some (FieldsArg.lit [("k", 5)])) none updDB
      = Except.ok (1, updDBRes) ∧
    updDBRes.storage.items = [Item.obj updPNew] ∧
    Item.obj updPNew ≠ serPoint updPNew := by decide

end TinyFluxVerif
